import Mathlib

/-!
Verification development for `src/datasets/utils/py_utils.py`.

This file gives a shallow embedding of the data model and the operations of
the module — the nested-structure mapper `map_nested` / `_single_map_nested`,
the size parser `convert_file_size_to_int`, the append-only `NonMutableDict`,
and the deterministic pickling layer (`Pickler.memoize`, `_no_cache_fields`,
`temporary_assignment`, `dumps`, `_save_code`, the two `save_function`
variants) — together with theorems about them.
-/

namespace DatasetsPyUtils

/-! ## Nested value model for `map_nested`

A Python value as seen by `map_nested`: an opaque leaf (any non-container
object), a `dict` (insertion-ordered association list with keys modelled as
`Nat`), a `list`, a `tuple`, or a `np.ndarray` (modelled as its ordered
element sequence). -/

inductive PyVal where
  | leaf : Nat → PyVal
  | dict : List (Nat × PyVal) → PyVal
  | list : List PyVal → PyVal
  | tuple : List PyVal → PyVal
  | array : List PyVal → PyVal
deriving Repr

mutual

/-- Decidable equality on `PyVal` (spelled out because `deriving` does not
handle the nested occurrences of `List`). -/
def PyVal.decEq : (a b : PyVal) → Decidable (a = b)
  | .leaf m, .leaf n =>
      match Nat.decEq m n with
      | isTrue h => isTrue (by rw [h])
      | isFalse h => isFalse (fun hh => by cases hh; exact h rfl)
  | .dict xs, .dict ys =>
      match PyVal.decEqPairs xs ys with
      | isTrue h => isTrue (by rw [h])
      | isFalse h => isFalse (fun hh => by cases hh; exact h rfl)
  | .list xs, .list ys =>
      match PyVal.decEqList xs ys with
      | isTrue h => isTrue (by rw [h])
      | isFalse h => isFalse (fun hh => by cases hh; exact h rfl)
  | .tuple xs, .tuple ys =>
      match PyVal.decEqList xs ys with
      | isTrue h => isTrue (by rw [h])
      | isFalse h => isFalse (fun hh => by cases hh; exact h rfl)
  | .array xs, .array ys =>
      match PyVal.decEqList xs ys with
      | isTrue h => isTrue (by rw [h])
      | isFalse h => isFalse (fun hh => by cases hh; exact h rfl)
  | .leaf _, .dict _ => isFalse (fun h => PyVal.noConfusion h)
  | .leaf _, .list _ => isFalse (fun h => PyVal.noConfusion h)
  | .leaf _, .tuple _ => isFalse (fun h => PyVal.noConfusion h)
  | .leaf _, .array _ => isFalse (fun h => PyVal.noConfusion h)
  | .dict _, .leaf _ => isFalse (fun h => PyVal.noConfusion h)
  | .dict _, .list _ => isFalse (fun h => PyVal.noConfusion h)
  | .dict _, .tuple _ => isFalse (fun h => PyVal.noConfusion h)
  | .dict _, .array _ => isFalse (fun h => PyVal.noConfusion h)
  | .list _, .leaf _ => isFalse (fun h => PyVal.noConfusion h)
  | .list _, .dict _ => isFalse (fun h => PyVal.noConfusion h)
  | .list _, .tuple _ => isFalse (fun h => PyVal.noConfusion h)
  | .list _, .array _ => isFalse (fun h => PyVal.noConfusion h)
  | .tuple _, .leaf _ => isFalse (fun h => PyVal.noConfusion h)
  | .tuple _, .dict _ => isFalse (fun h => PyVal.noConfusion h)
  | .tuple _, .list _ => isFalse (fun h => PyVal.noConfusion h)
  | .tuple _, .array _ => isFalse (fun h => PyVal.noConfusion h)
  | .array _, .leaf _ => isFalse (fun h => PyVal.noConfusion h)
  | .array _, .dict _ => isFalse (fun h => PyVal.noConfusion h)
  | .array _, .list _ => isFalse (fun h => PyVal.noConfusion h)
  | .array _, .tuple _ => isFalse (fun h => PyVal.noConfusion h)

/-- Decidable equality on lists of `PyVal`. -/
def PyVal.decEqList : (xs ys : List PyVal) → Decidable (xs = ys)
  | [], [] => isTrue rfl
  | [], _ :: _ => isFalse (fun h => List.noConfusion h)
  | _ :: _, [] => isFalse (fun h => List.noConfusion h)
  | x :: xs, y :: ys =>
      match PyVal.decEq x y, PyVal.decEqList xs ys with
      | isTrue h1, isTrue h2 => isTrue (by rw [h1, h2])
      | isFalse h1, _ => isFalse (fun hh => by cases hh; exact h1 rfl)
      | _, isFalse h2 => isFalse (fun hh => by cases hh; exact h2 rfl)

/-- Decidable equality on key-value pair lists of `PyVal`. -/
def PyVal.decEqPairs : (xs ys : List (Nat × PyVal)) → Decidable (xs = ys)
  | [], [] => isTrue rfl
  | [], _ :: _ => isFalse (fun h => List.noConfusion h)
  | _ :: _, [] => isFalse (fun h => List.noConfusion h)
  | (k, x) :: xs, (k', y) :: ys =>
      match Nat.decEq k k', PyVal.decEq x y, PyVal.decEqPairs xs ys with
      | isTrue h0, isTrue h1, isTrue h2 => isTrue (by rw [h0, h1, h2])
      | isFalse h0, _, _ => isFalse (fun hh => by cases hh; exact h0 rfl)
      | _, isFalse h1, _ => isFalse (fun hh => by cases hh; exact h1 rfl)
      | _, _, isFalse h2 => isFalse (fun hh => by cases hh; exact h2 rfl)

end

instance : DecidableEq PyVal := PyVal.decEq

/-- The traversal-type options of `map_nested` (`dict_only`, `map_list`,
`map_tuple`, `map_numpy`), which determine the `types` tuple built at the
top of `map_nested` when the caller leaves `types=None`. -/
structure MapOptions where
  dict_only : Bool
  map_list : Bool
  map_tuple : Bool
  map_numpy : Bool
deriving DecidableEq, Repr

/-- Does `isinstance(v, types)` hold, for the `types` tuple built by
`map_nested` from the options?  `types` contains `list` iff
`not dict_only and map_list`, `tuple` iff `not dict_only and map_tuple`,
`np.ndarray` iff `not dict_only and map_numpy`. -/
def inTypes (o : MapOptions) : PyVal → Bool
  | .list _ => !o.dict_only && o.map_list
  | .tuple _ => !o.dict_only && o.map_tuple
  | .array _ => !o.dict_only && o.map_numpy
  | _ => false

/-- Does `isinstance(v, dict)` hold? -/
def isDict : PyVal → Bool
  | .dict _ => true
  | _ => false

mutual

/-- Model of `_single_map_nested` (py_utils.py lines 283-313), specialised to
the semantically relevant arguments `(function, data_struct, types)`; the
`rank`, `disable_tqdm` and `desc` arguments only affect logging and progress
bars and are dropped.  The singleton fast path applies `function` to any
value that is neither a `dict` nor an instance of `types`; otherwise the
value is rebuilt with each element mapped recursively. -/
def _single_map_nested (f : PyVal → PyVal) (o : MapOptions) : PyVal → PyVal
  | .leaf n => f (.leaf n)
  | .dict kvs => .dict (smnPairs f o kvs)
  | .list xs =>
      if !o.dict_only && o.map_list then .list (smnList f o xs) else f (.list xs)
  | .tuple xs =>
      if !o.dict_only && o.map_tuple then .tuple (smnList f o xs) else f (.tuple xs)
  | .array xs =>
      if !o.dict_only && o.map_numpy then .array (smnList f o xs) else f (.array xs)

/-- Element-wise recursion of `_single_map_nested` over a sequence
(the list comprehension `[_single_map_nested((function, v, types, None, True,
None)) for v in pbar]`). -/
def smnList (f : PyVal → PyVal) (o : MapOptions) : List PyVal → List PyVal
  | [] => []
  | x :: xs => _single_map_nested f o x :: smnList f o xs

/-- Item-wise recursion of `_single_map_nested` over a dict (the dict
comprehension over `data_struct.items()`). -/
def smnPairs (f : PyVal → PyVal) (o : MapOptions) :
    List (Nat × PyVal) → List (Nat × PyVal)
  | [] => []
  | (k, x) :: xs => (k, _single_map_nested f o x) :: smnPairs f o xs

end

/-! ## Chunk splitting in the parallel path of `map_nested` -/

/-- Python slice `l[s:e]` for `0 ≤ s ≤ e` (both ends clamped to the length,
exactly as Python slicing clamps). -/
def slice (l : List α) (s e : Nat) : List α := (l.drop s).take (e - s)

/-- The `start` index of chunk `i` when splitting `n` elements over `w`
workers: `div * index + min(index, mod)` (py_utils.py line 361). -/
def chunkStart (n w i : Nat) : Nat := n / w * i + min i (n % w)

/-- The `end` index of chunk `i`: `start + div + (1 if index < mod else 0)`
(py_utils.py line 362). -/
def chunkEnd (n w i : Nat) : Nat :=
  chunkStart n w i + n / w + (if i < n % w then 1 else 0)

/-- The contiguous splits `[iterable[start:end] for index in range(num_proc)]`
organised by `map_nested` (py_utils.py lines 357-363). -/
def splitChunks (l : List α) (w : Nat) : List (List α) :=
  (List.range w).map fun i => slice l (chunkStart l.length w i) (chunkEnd l.length w i)

/-! ## `map_nested` itself -/

/-- The `ValueError` message raised when the chunk accounting check fails
(py_utils.py lines 366-370; the f-string details with the two lengths are
elided). -/
def divideErrMsg : String := "Error dividing inputs iterable among processes"

/-- The `TypeError` message Python raises when `for obj in proc_res` iterates
over a non-iterable worker result. -/
def notIterableMsg : String := "TypeError: object is not iterable"

/-- Python iteration over a value: lists, tuples and arrays yield their
elements, dicts yield their keys, and any other object raises `TypeError`. -/
def pyIter : PyVal → Except String (List PyVal)
  | .list xs => .ok xs
  | .tuple xs => .ok xs
  | .array xs => .ok xs
  | .dict kvs => .ok (kvs.map fun kv => PyVal.leaf kv.fst)
  | .leaf _ => .error notIterableMsg

/-- The flattening `[obj for proc_res in mapped for obj in proc_res]` of the
per-worker results (py_utils.py line 381); the first non-iterable worker
result raises. -/
def flattenResults : List PyVal → Except String (List PyVal)
  | [] => .ok []
  | r :: rs =>
      match pyIter r, flattenResults rs with
      | .ok xs, .ok ys => .ok (xs ++ ys)
      | .error e, _ => .error e
      | .ok _, .error e => .error e

/-- The ordered leaf sequence `iterable`: `list(data_struct.values())` for a
dict, the container itself otherwise (py_utils.py line 347). -/
def elemsOf : PyVal → List PyVal
  | .dict kvs => kvs.map Prod.snd
  | .list xs => xs
  | .tuple xs => xs
  | .array xs => xs
  | .leaf _ => []

/-- The container kind a slice `iterable[start:end]` of the iterable has:
slicing the list `list(d.values())` gives a list, slicing a tuple gives a
tuple, slicing an ndarray gives an ndarray. -/
def wrapChunk : PyVal → List PyVal → PyVal
  | .dict _, c => .list c
  | .list _, c => .list c
  | .tuple _, c => .tuple c
  | .array _, c => .array c
  | .leaf _, c => .list c

/-- Reconstruction of the output container from the mapped leaves
(py_utils.py lines 384-392): `dict(zip(data_struct.keys(), mapped))` for a
dict (Python `zip` truncates at the shorter argument, as `List.zip` does),
`mapped` for a list, `tuple(mapped)` for a tuple, `np.array(mapped)`
otherwise. -/
def rebuild (v : PyVal) (mapped : List PyVal) : PyVal :=
  match v with
  | .dict kvs => .dict ((kvs.map Prod.fst).zip mapped)
  | .list _ => .list mapped
  | .tuple _ => .tuple mapped
  | .array _ => .array mapped
  | .leaf _ => .array mapped

/-- Model of `map_nested` (py_utils.py lines 316-392) in the `types=None`
configuration, with the four traversal options collected in `o`.  The
`disable_tqdm` and `desc` arguments only affect progress bars and are
dropped.  Errors raised on the way (the chunk-accounting `ValueError`, or a
`TypeError` while flattening worker results) are modelled with `Except`. -/
def map_nested (f : PyVal → PyVal) (o : MapOptions) (num_proc : Option Nat)
    (v : PyVal) : Except String PyVal :=
  -- Singleton
  if !isDict v && !inTypes o v then .ok (f v)
  else
    let iterable := elemsOf v
    let np := num_proc.getD 1
    if np ≤ 1 ∨ iterable.length ≤ np then
      .ok (rebuild v (iterable.map (_single_map_nested f o)))
    else
      let chunks := splitChunks iterable np
      if iterable.length ≠ (chunks.map List.length).sum then
        .error divideErrMsg
      else
        match flattenResults (chunks.map fun c => _single_map_nested f o (wrapChunk v c)) with
        | .ok mapped => .ok (rebuild v mapped)
        | .error e => .error e

instance {ε α : Type} [DecidableEq ε] [DecidableEq α] :
    DecidableEq (Except ε α) := fun a b =>
  match a, b with
  | .ok x, .ok y =>
      match decEq x y with
      | isTrue h => isTrue (by rw [h])
      | isFalse h => isFalse (fun hh => by cases hh; exact h rfl)
  | .error e, .error e' =>
      match decEq e e' with
      | isTrue h => isTrue (by rw [h])
      | isFalse h => isFalse (fun hh => by cases hh; exact h rfl)
  | .ok _, .error _ => isFalse (fun h => Except.noConfusion h)
  | .error _, .ok _ => isFalse (fun h => Except.noConfusion h)

/-! ## `convert_file_size_to_int` (py_utils.py lines 86-117) -/

/-- Model of Python `str.upper()` (ASCII range, which covers the unit
suffixes under study), evaluating over the character list so that proofs
can compute. -/
def pyToUpper (s : String) : String := ⟨s.data.map Char.toUpper⟩

/-- Model of Python `str.endswith(suffix)`. -/
def pyEndsWith (s suffix : String) : Bool := List.isSuffixOf suffix.data s.data

/-- Model of the Python slice `s[:-n]` for `n ≥ 1` (drop the last `n`
characters; Python clamps just like `List.dropLast`-style truncation). -/
def pyDropRight (s : String) (n : Nat) : String :=
  ⟨s.data.take (s.data.length - n)⟩

/-- Modelled from the Python built-in `int(str)` (not part of this module):
parsing of an optionally signed decimal digit string; Python's tolerance of
surrounding whitespace and underscore separators is not modelled, which is
immaterial for the suffix logic under study. -/
def pyDigits : List Char → Option Nat
  | [] => none
  | cs =>
      if cs.all Char.isDigit then
        some (cs.foldl (fun a c => a * 10 + (c.toNat - 48)) 0)
      else none

/-- Signed variant of `pyDigits`, the model of `int(...)` applied to the
prefix of the size string. -/
def int_of_string (s : String) : Option Int :=
  match s.toList with
  | '-' :: rest => (pyDigits rest).map (fun n => -(n : Int))
  | '+' :: rest => (pyDigits rest).map (fun n => (n : Int))
  | cs => (pyDigits cs).map (fun n => (n : Int))

/-- The `ValueError` text for an unrecognised unit suffix (py_utils.py line
117; the quotes around 5GB are elided). -/
def invalidFormatMsg : String :=
  "`size` is not in a valid format. Use an integer followed by the unit, e.g., 5GB."

/-- The `ValueError` Python's `int()` raises on a malformed digit string. -/
def intParseErrMsg : String := "invalid literal for int() with base 10"

/-- An `int` or `str` argument, as accepted by `convert_file_size_to_int`. -/
inductive PySize where
  | int : Int → PySize
  | str : String → PySize

/-- A binary-unit branch: `int(size[:-3]) * mult` (py_utils.py lines
102-107). -/
def intBranch3 (size : String) (mult : Int) : Except String Int :=
  match int_of_string (pyDropRight size 3) with
  | some n => .ok (n * mult)
  | none => .error intParseErrMsg

/-- A decimal-unit branch: `int_size = int(size[:-2]) * mult`, then
`int_size // 8 if size.endswith("b") else int_size` (py_utils.py lines
108-116); Python `//` is floor division, i.e. `Int.fdiv`. -/
def intBranch2 (size : String) (mult : Int) : Except String Int :=
  match int_of_string (pyDropRight size 2) with
  | some n =>
      .ok (if pyEndsWith size "b" then Int.fdiv (n * mult) 8 else n * mult)
  | none => .error intParseErrMsg

/-- Model of `convert_file_size_to_int` (py_utils.py lines 86-117). -/
def convert_file_size_to_int : PySize → Except String Int
  | .int n => .ok n
  | .str size =>
      if pyEndsWith (pyToUpper size) "GIB" then intBranch3 size (2 ^ 30)
      else if pyEndsWith (pyToUpper size) "MIB" then intBranch3 size (2 ^ 20)
      else if pyEndsWith (pyToUpper size) "KIB" then intBranch3 size (2 ^ 10)
      else if pyEndsWith (pyToUpper size) "GB" then intBranch2 size (10 ^ 9)
      else if pyEndsWith (pyToUpper size) "MB" then intBranch2 size (10 ^ 6)
      else if pyEndsWith (pyToUpper size) "KB" then intBranch2 size (10 ^ 3)
      else .error invalidFormatMsg

/-! ## `NonMutableDict` (py_utils.py lines 248-273)

A Python dict is modelled as an insertion-ordered association list. -/

/-- The error template of `NonMutableDict` (py_utils.py lines 257-260;
`.format(key=...)` substitution is elided). -/
def overwriteErrMsg : String := "Try to overwrite existing key: {key}"

/-- Plain `dict.__setitem__`: overwrite in place when the key exists
(keeping the stored key object), append otherwise. -/
def pySetItemRaw {α β : Type} [DecidableEq α] :
    List (α × β) → α → β → List (α × β)
  | [], k, v => [(k, v)]
  | (k', v') :: rest, k, v =>
      if k' = k then (k', v) :: rest else (k', v') :: pySetItemRaw rest k v

/-- Model of `NonMutableDict.__setitem__` (py_utils.py lines 265-268): raise on an
existing key, otherwise defer to `dict.__setitem__`. -/
def NonMutableDict_setitem {α β : Type} [DecidableEq α]
    (d : List (α × β)) (k : α) (v : β) : Except String (List (α × β)) :=
  if k ∈ d.map Prod.fst then .error overwriteErrMsg
  else .ok (pySetItemRaw d k v)

/-- Model of `NonMutableDict.update` (py_utils.py lines 270-273): raise when any key
of `other` is already present (`any(k in self for k in other)`), otherwise
defer to `dict.update`, which sets each item of `other` in order. -/
def NonMutableDict_update {α β : Type} [DecidableEq α]
    (d other : List (α × β)) : Except String (List (α × β)) :=
  if ∃ kv ∈ other, kv.1 ∈ d.map Prod.fst then .error overwriteErrMsg
  else .ok (other.foldl (fun acc kv => pySetItemRaw acc kv.1 kv.2) d)

/-! ## Object and attribute model for the serialization layer -/

/-- An opaque scalar Python value (enough structure for the serializer
claims: an integer or a piece of text). -/
inductive PyAtom where
  | int : Int → PyAtom
  | str : String → PyAtom
deriving DecidableEq, Repr

/-- An attribute value of a Python object: `None`, a dict, or a scalar. -/
inductive PyAttr where
  | none : PyAttr
  | dict : List (String × PyAtom) → PyAttr
  | atom : PyAtom → PyAttr
deriving DecidableEq, Repr

/-- An object as seen by `_no_cache_fields` and `temporary_assignment`: the
class names along its type's method-resolution order, and its attribute
mapping. -/
structure PyObject where
  mro : List String
  attrs : List (String × PyAttr)
deriving DecidableEq, Repr

/-- Attribute lookup in an insertion-ordered attribute list. -/
def getAttrList : List (String × PyAttr) → String → Option PyAttr
  | [], _ => none
  | (k', v') :: rest, k => if k' = k then some v' else getAttrList rest k

/-- Attribute assignment: overwrite in place, or append a new attribute. -/
def setAttrList : List (String × PyAttr) → String → PyAttr → List (String × PyAttr)
  | [], k, v => [(k, v)]
  | (k', v') :: rest, k, v =>
      if k' = k then (k', v) :: rest else (k', v') :: setAttrList rest k v

/-- Python `getattr(obj, name, None)` lookup (without the default). -/
def pyGetattr (obj : PyObject) (name : String) : Option PyAttr :=
  getAttrList obj.attrs name

/-- Python `setattr(obj, name, v)`. -/
def pySetattr (obj : PyObject) (name : String) (v : PyAttr) : PyObject :=
  { obj with attrs := setAttrList obj.attrs name v }

/-- Model of `temporary_assignment` (py_utils.py lines 150-158): read the
original value with `getattr(obj, attr, None)`, assign `value`, run the
body, and restore the original in a `finally` block — so the restore
happens whether the body returns or raises (the `Except` result carries the
body's outcome either way). -/
def temporary_assignment {β : Type} (obj : PyObject) (attr : String)
    (value : PyAttr) (body : PyObject → Except Unit β) :
    Except Unit β × PyObject :=
  let original := (pyGetattr obj attr).getD PyAttr.none
  let obj1 := pySetattr obj attr value
  (body obj1, pySetattr obj1 attr original)

/-- The guard of `_no_cache_fields` (py_utils.py lines 450-454):
`"PreTrainedTokenizerBase"` occurs among the `__name__`s of the type's MRO,
the object has a `cache` attribute, and that attribute is a dict. -/
def hasTokenizerCacheDict (obj : PyObject) : Bool :=
  obj.mro.contains "PreTrainedTokenizerBase" &&
    match pyGetattr obj "cache" with
    | some (.dict _) => true
    | _ => false

/-- Model of `dumps` = `_no_cache_fields` around the `dill` encoding
(py_utils.py lines 447-469).  The encoding itself is an opaque pure
function `encode` (it may fail, modelling an exception); the result is the
encoder's outcome together with the object's final attribute state. -/
def dumps_state {β : Type} (encode : PyObject → Except Unit β)
    (obj : PyObject) : Except Unit β × PyObject :=
  if hasTokenizerCacheDict obj then
    temporary_assignment obj "cache" (.dict []) encode
  else (encode obj, obj)

/-! ## The memoization rule of `Pickler` -/

/-- A leaf object handed to the pickler, carrying its runtime identity
(`id(obj)`) separately from its content: a text scalar or an opaque
non-text object with a content tag. -/
inductive PickleLeaf where
  | str : String → PickleLeaf
  | obj : Nat → PickleLeaf
deriving DecidableEq, Repr

/-- A token of the output stream: the literal encoding of a text value, the
encoding of a non-text object, or a memo back-reference. -/
inductive PickleToken where
  | strTok : String → PickleToken
  | objTok : Nat → PickleToken
  | getTok : Nat → PickleToken
deriving DecidableEq, Repr

/-- Model of `Pickler.memoize` (py_utils.py lines 435-438): after encoding
an object, record its identity in the memo — unless its exact type is
`str`. -/
def pickler_memoize (memo : List Nat) (objId : Nat) : PickleLeaf → List Nat
  | .str _ => memo
  | .obj _ => memo ++ [objId]

/-- Position of an object id in the memo (the underlying pickler's memo
lookup by `id(obj)` before encoding). -/
def memoIdx : List Nat → Nat → Option Nat
  | [], _ => none
  | m :: ms, i => if m = i then some 0 else (memoIdx ms i).map (· + 1)

/-- The pickling loop over the items of a container: each object is first
looked up in the memo by identity (emitting a get token on a hit, as the
underlying pickler's `save` does), otherwise its content is encoded and
`Pickler.memoize` is applied. -/
def pickleItems (memo : List Nat) : List (Nat × PickleLeaf) → List PickleToken
  | [] => []
  | (i, v) :: rest =>
      match memoIdx memo i with
      | some idx => PickleToken.getTok idx :: pickleItems memo rest
      | none =>
          (match v with
            | .str s => PickleToken.strTok s
            | .obj t => PickleToken.objTok t)
            :: pickleItems (pickler_memoize memo i v) rest

/-- Result of `dumps` on a single leaf object (fresh pickler, empty memo). -/
def dumpsSingle (i : Nat) (v : PickleLeaf) : List PickleToken :=
  pickleItems [] [(i, v)]

/-- Result of `dumps` on a container of leaf objects (fresh pickler, empty memo; the
container framing tokens are constant and elided). -/
def dumpsContainer (items : List (Nat × PickleLeaf)) : List PickleToken :=
  pickleItems [] items

/-- The identities of the non-text objects in a container — the only ids
`Pickler.memoize` can ever record. -/
def objIds : List (Nat × PickleLeaf) → List Nat
  | [] => []
  | (i, .obj _) :: rest => i :: objIds rest
  | (_, .str _) :: rest => objIds rest

/-- The memo state after pickling a list of items. -/
def memoAfter (memo : List Nat) : List (Nat × PickleLeaf) → List Nat
  | [] => memo
  | (i, v) :: rest =>
      match memoIdx memo i with
      | some _ => memoAfter memo rest
      | none => memoAfter (pickler_memoize memo i v) rest

/-! ## `_save_code` and the two `save_function` variants -/

/-- Model of `os.path.basename` for slash-separated paths: the characters
after the last `/`. -/
def basename (path : String) : String :=
  ⟨(path.data.reverse.takeWhile (fun c => c != '/')).reverse⟩

/-- Does a filename start with `<` (the mark of an interactive/REPL origin
such as `<stdin>` or `<ipython-input-...>`)? -/
def startsWithLt (path : String) : Bool :=
  match path.data with
  | '<' :: _ => true
  | _ => false

/-- A code object, with the fields `_save_code` reads and re-emits
(py_utils.py lines 548-567, the Python-3 branch with
`co_posonlyargcount`); semantically opaque fields are plain data. -/
structure CodeType where
  co_argcount : Nat
  co_posonlyargcount : Nat
  co_kwonlyargcount : Nat
  co_nlocals : Nat
  co_stacksize : Nat
  co_flags : Nat
  co_code : List Nat
  co_consts : List PyAtom
  co_names : List String
  co_varnames : List String
  co_filename : String
  co_name : String
  co_firstlineno : Nat
  co_lnotab : List Nat
  co_freevars : List String
  co_cellvars : List String
deriving DecidableEq, Repr

/-- Model of `_save_code` (py_utils.py lines 521-605): the reduce payload
is the `CodeType` constructor applied to the original fields, except that
the filename becomes `""` for an interactive origin or a lambda and its
directory part is dropped otherwise, and the line number always becomes
1. -/
def _save_code (obj : CodeType) : CodeType :=
  { obj with
    co_filename :=
      if startsWithLt obj.co_filename = true ∨ obj.co_name = "<lambda>" then ""
      else basename obj.co_filename
    co_firstlineno := 1 }

/-- Python string comparison (by code points), as used by `sorted` on the
globals keys. -/
def charListLe : List Char → List Char → Bool
  | [], _ => true
  | _ :: _, [] => false
  | a :: as, b :: bs =>
      if a.toNat < b.toNat then true
      else if b.toNat < a.toNat then false
      else charListLe as bs

/-- String order on the underlying character lists. -/
def pyStrLe (a b : String) : Bool := charListLe a.data b.data

/-- Insertion step of sorting the globals keys. -/
def insertSortedKey (k : String) : List String → List String
  | [] => [k]
  | x :: xs => if pyStrLe k x then k :: x :: xs else x :: insertSortedKey k xs

/-- Model of Python `sorted` on the key list. -/
def sortKeys : List String → List String
  | [] => []
  | k :: rest => insertSortedKey k (sortKeys rest)

/-- Key lookup in a globals mapping (Python `globs[k]`). -/
def lookupKey : List (String × PyAtom) → String → Option PyAtom
  | [], _ => none
  | (k', v) :: rest, k => if k' = k then some v else lookupKey rest k

/-- Model of `globs = {k: globs[k] for k in sorted(globs.keys())}`
(py_utils.py lines 632 and 745): re-key the mapping in sorted key order.
(The `getD` default is unreachable when the keys are the mapping's own.) -/
def sortGlobs (globs : List (String × PyAtom)) : List (String × PyAtom) :=
  (sortKeys (globs.map Prod.fst)).map
    fun k => (k, (lookupKey globs k).getD (PyAtom.int 0))

/-- A function object, with the fields the two `save_function` variants
read.  `func_globals` is the mapping of referenced globals computed by
`dill.detect.globalvars` (in its native, unsorted iteration order), since
`dumps` always builds the pickler with `recurse=True`. -/
structure FunctionType where
  func_code : CodeType
  func_globals : List (String × PyAtom)
  func_name : String
  func_qualname : String
  func_defaults : List PyAtom
  func_closure : List PyAtom
  func_dict : List (String × PyAtom)
  func_kwdefaults : Option (List (String × PyAtom))
  func_doc : Option String
  func_annotations : Option (List (String × PyAtom))
  func_module : String
deriving DecidableEq, Repr

/-- The reduce payload of the dill < 0.3.5 `save_function` for a
non-locatable function: the arguments of `_create_function`
(py_utils.py line 647). -/
structure FunctionPayloadOld where
  code : CodeType
  globs : List (String × PyAtom)
  name : String
  defaults : List PyAtom
  closure : List PyAtom
  fdict : List (String × PyAtom)
  fkwdefaults : Option (List (String × PyAtom))
deriving DecidableEq, Repr

/-- Model of the non-locatable branch of the dill < 0.3.5 `save_function`
(py_utils.py lines 610-681) as exercised by `dumps` (`recurse=True`), at
the top level of a dump (the self-referential `id(obj) in stack` case is
out of scope): the referenced globals are re-keyed in sorted order and
embedded directly in the `_create_function` arguments, together with the
code object normalised by `_save_code`. -/
def save_function_old (f : FunctionType) : FunctionPayloadOld :=
  { code := _save_code f.func_code
    globs := sortGlobs f.func_globals
    name := f.func_name
    defaults := f.func_defaults
    closure := f.func_closure
    fdict := f.func_dict
    fkwdefaults := f.func_kwdefaults }

/-- The serialized payload of the dill ≥ 0.3.5 `save_function` for a
non-locatable function: the `_create_function` arguments, the state dict
handed to `_save_with_postproc`, and the deferred `_setitems` entries of
the postproc list (py_utils.py lines 686-817). -/
structure FunctionPayloadNew where
  code : CodeType
  globs : List (String × PyAtom)
  name : String
  defaults : List PyAtom
  closure : List PyAtom
  state_doc : Option String
  state_kwdefaults : Option (List (String × PyAtom))
  state_annotations : Option (List (String × PyAtom))
  state_qualname : Option String
  state_module : Option String
  state_dict : List (String × PyAtom)
  postproc_setitems : List (String × PyAtom)
deriving DecidableEq, Repr

/-- Model of the non-locatable branch of the dill ≥ 0.3.5 `save_function`
(py_utils.py lines 686-817) as exercised by `dumps` (`recurse=True`, empty
postproc stack at top level): the embedded globals dict starts as the bare
`{"__name__": module}` (the captured bindings are deferred to a
`_setitems` postproc step in their original order), the sorting line 745 is
applied to that bare dict, and the state dict collects `__doc__`,
`__kwdefaults__`, `__annotations__`, a divergent `__qualname__`, and
`__module__` when it is not already the `__name__` entry. -/
def save_function_new (f : FunctionType) : FunctionPayloadNew :=
  let globs0 : List (String × PyAtom) := [("__name__", .str f.func_module)]
  let globs := sortGlobs globs0
  { code := _save_code f.func_code
    globs := globs
    name := f.func_name
    defaults := f.func_defaults
    closure := f.func_closure
    state_doc := f.func_doc
    state_kwdefaults := f.func_kwdefaults
    state_annotations := f.func_annotations
    state_qualname :=
      if f.func_qualname = f.func_name then none else some f.func_qualname
    state_module :=
      if lookupKey globs "__name__" = some (.str f.func_module) then none
      else some f.func_module
    state_dict := f.func_dict
    postproc_setitems := f.func_globals }

/-- A concrete named function in a regular file, used to probe the
location-stripping claims. -/
def c2fun1 : FunctionType :=
  { func_code :=
      { co_argcount := 1, co_posonlyargcount := 0, co_kwonlyargcount := 0,
        co_nlocals := 1, co_stacksize := 2, co_flags := 67,
        co_code := [100, 0, 83, 0], co_consts := [.int 0], co_names := [],
        co_varnames := ["x"], co_filename := "proj/module_a.py",
        co_name := "foo", co_firstlineno := 10, co_lnotab := [4],
        co_freevars := ["c"], co_cellvars := [] }
    func_globals := [("g", .int 5)]
    func_name := "foo"
    func_qualname := "foo"
    func_defaults := [.int 1]
    func_closure := [.int 7]
    func_dict := []
    func_kwdefaults := none
    func_doc := none
    func_annotations := none
    func_module := "m" }

/-- The same function as `c2fun1` except for its source file path and
defining line number (a different basename). -/
def c2fun2 : FunctionType :=
  { c2fun1 with func_code :=
      { c2fun1.func_code with
        co_filename := "other/module_b.py", co_firstlineno := 42 } }

/-- A concrete function whose captured globals iterate in non-sorted
order, used to probe the globals-sorting claim. -/
def c7fun : FunctionType :=
  { c2fun1 with func_globals := [("zvar", .int 1), ("avar", .int 2)] }

/-! # Theorems -/

/-! ## Arithmetic and list facts about the chunk split -/

theorem chunkStart_zero (n w : Nat) : chunkStart n w 0 = 0 := by
  simp [chunkStart]

theorem chunkEnd_eq_chunkStart_succ (n w i : Nat) :
    chunkEnd n w i = chunkStart n w (i + 1) := by
  simp only [chunkEnd, chunkStart, Nat.mul_succ]
  rcases Nat.lt_or_ge i (n % w) with h | h
  · rw [if_pos h, Nat.min_eq_left h.le, Nat.min_eq_left h]
    simp only [Nat.succ_eq_add_one]
    ring
  · rw [if_neg (Nat.not_lt.mpr h), Nat.min_eq_right h,
      Nat.min_eq_right (Nat.le_succ_of_le h)]
    ring

theorem chunkStart_le_succ (n w i : Nat) :
    chunkStart n w i ≤ chunkStart n w (i + 1) := by
  rw [← chunkEnd_eq_chunkStart_succ]
  simp only [chunkEnd]
  exact le_trans (Nat.le_add_right _ _) (Nat.le_add_right _ _)

theorem chunkStart_mono (n w : Nat) : Monotone (chunkStart n w) :=
  monotone_nat_of_le_succ (chunkStart_le_succ n w)

theorem chunkStart_self (n w : Nat) (hw : 0 < w) : chunkStart n w w = n := by
  have hlt : n % w < w := Nat.mod_lt n hw
  rw [chunkStart, Nat.min_eq_right hlt.le, Nat.mul_comm]
  exact Nat.div_add_mod n w

theorem slice_zero_length (l : List α) : slice l 0 l.length = l := by
  simp [slice]

theorem slice_append (l : List α) {s m e : Nat} (h1 : s ≤ m) (h2 : m ≤ e) :
    slice l s m ++ slice l m e = slice l s e := by
  simp only [slice]
  have he : e - s = (m - s) + (e - m) := by omega
  have hm : s + (m - s) = m := by omega
  rw [he, List.take_add, List.drop_drop, hm]

theorem slice_length (l : List α) {s e : Nat} (h1 : s ≤ e) (h2 : e ≤ l.length) :
    (slice l s e).length = e - s := by
  simp only [slice, List.length_take, List.length_drop]
  omega

theorem flatten_slices (l : List α) (st : Nat → Nat)
    (mono : ∀ i, st i ≤ st (i + 1)) :
    ∀ k, ((List.range k).map fun i => slice l (st i) (st (i + 1))).flatten
      = slice l (st 0) (st k)
  | 0 => by simp [slice]
  | k + 1 => by
      rw [List.range_succ, List.map_append, List.flatten_append,
        flatten_slices l st mono k]
      simp only [List.map_cons, List.map_nil, List.flatten_cons, List.flatten_nil,
        List.append_nil]
      exact slice_append l ((monotone_nat_of_le_succ mono) (Nat.zero_le k)) (mono k)

theorem splitChunks_length (l : List α) (w : Nat) : (splitChunks l w).length = w := by
  simp [splitChunks]

theorem splitChunks_flatten (l : List α) {w : Nat} (hw : 0 < w) :
    (splitChunks l w).flatten = l := by
  have hrw : splitChunks l w = (List.range w).map fun i =>
      slice l (chunkStart l.length w i) (chunkStart l.length w (i + 1)) := by
    simp [splitChunks, chunkEnd_eq_chunkStart_succ]
  rw [hrw, flatten_slices l _ (chunkStart_le_succ l.length w) w,
    chunkStart_zero, chunkStart_self l.length w hw, slice_zero_length]

theorem splitChunks_sum (l : List α) {w : Nat} (hw : 0 < w) :
    ((splitChunks l w).map List.length).sum = l.length := by
  rw [← List.length_flatten, splitChunks_flatten l hw]

theorem splitChunks_getD (l : List α) {w i : Nat} (hi : i < w) :
    (splitChunks l w).getD i []
      = slice l (chunkStart l.length w i) (chunkEnd l.length w i) := by
  simp [splitChunks, List.getD, List.getElem?_range, hi]

theorem chunkEnd_le (n : Nat) {w i : Nat} (hw : 0 < w) (hi : i < w) :
    chunkEnd n w i ≤ n := by
  rw [chunkEnd_eq_chunkStart_succ]
  have h := (chunkStart_mono n w) (show i + 1 ≤ w from hi)
  rwa [chunkStart_self n w hw] at h

theorem splitChunks_getD_length (l : List α) {w i : Nat} (hw : 0 < w) (hi : i < w) :
    ((splitChunks l w).getD i []).length
      = l.length / w + (if i < l.length % w then 1 else 0) := by
  rw [splitChunks_getD l hi]
  have h2 : chunkStart l.length w i ≤ chunkEnd l.length w i := by
    simp only [chunkEnd]
    exact le_trans (Nat.le_add_right _ _) (Nat.le_add_right _ _)
  rw [slice_length l h2 (chunkEnd_le l.length hw hi)]
  simp only [chunkEnd]
  rw [Nat.add_assoc, Nat.add_sub_cancel_left]

/-! ## Facts about `_single_map_nested` -/

theorem smnList_eq_map (f : PyVal → PyVal) (o : MapOptions) :
    (xs : List PyVal) → smnList f o xs = xs.map (_single_map_nested f o)
  | [] => rfl
  | x :: xs => by rw [smnList, List.map_cons, smnList_eq_map f o xs]

mutual

theorem single_map_nested_id (o : MapOptions) :
    (v : PyVal) → _single_map_nested id o v = v
  | .leaf n => by simp [_single_map_nested]
  | .dict kvs => by rw [_single_map_nested, smnPairs_id o kvs]
  | .list xs => by
      rw [_single_map_nested]
      split
      · rw [smnList_id o xs]
      · rfl
  | .tuple xs => by
      rw [_single_map_nested]
      split
      · rw [smnList_id o xs]
      · rfl
  | .array xs => by
      rw [_single_map_nested]
      split
      · rw [smnList_id o xs]
      · rfl

theorem smnList_id (o : MapOptions) : (xs : List PyVal) → smnList id o xs = xs
  | [] => rfl
  | x :: xs => by rw [smnList, single_map_nested_id o x, smnList_id o xs]

theorem smnPairs_id (o : MapOptions) :
    (kvs : List (Nat × PyVal)) → smnPairs id o kvs = kvs
  | [] => rfl
  | (k, x) :: kvs => by rw [smnPairs, single_map_nested_id o x, smnPairs_id o kvs]

end

theorem zip_fst_snd (kvs : List (Nat × PyVal)) :
    (kvs.map Prod.fst).zip (kvs.map Prod.snd) = kvs := by
  induction kvs with
  | nil => rfl
  | cons x xs ih => cases x; simp [ih]

theorem rebuild_elemsOf (o : MapOptions) :
    ∀ v : PyVal, isDict v = true ∨ inTypes o v = true →
      rebuild v (elemsOf v) = v
  | .leaf _, h => by simp [isDict, inTypes] at h
  | .dict kvs, _ => by simp [rebuild, elemsOf, zip_fst_snd]
  | .list _, _ => rfl
  | .tuple _, _ => rfl
  | .array _, _ => rfl

theorem flattenResults_map_ok {β : Type} (cs : List β) (g : β → PyVal)
    (r : β → List PyVal) (hg : ∀ c ∈ cs, pyIter (g c) = .ok (r c)) :
    flattenResults (cs.map g) = .ok ((cs.map r).flatten) := by
  induction cs with
  | nil => rfl
  | cons c cs ih =>
      rw [List.map_cons, List.map_cons, List.flatten_cons]
      simp only [flattenResults]
      rw [hg c (List.mem_cons_self c cs),
        ih (fun x hx => hg x (List.mem_cons_of_mem c hx))]

theorem single_id_list (o : MapOptions) (c : List PyVal) :
    _single_map_nested id o (.list c) = .list c := by
  rw [_single_map_nested]
  split
  · rw [smnList_id]
  · rfl

theorem single_id_tuple (o : MapOptions) (c : List PyVal) :
    _single_map_nested id o (.tuple c) = .tuple c := by
  rw [_single_map_nested]
  split
  · rw [smnList_id]
  · rfl

theorem single_id_array (o : MapOptions) (c : List PyVal) :
    _single_map_nested id o (.array c) = .array c := by
  rw [_single_map_nested]
  split
  · rw [smnList_id]
  · rfl

/-- Applying `_single_map_nested` with the identity function to any chunk
slice gives back a container that iterates to the chunk itself. -/
theorem pyIter_single_id_chunk (o : MapOptions) (v : PyVal) (c : List PyVal) :
    pyIter (_single_map_nested id o (wrapChunk v c)) = .ok c := by
  cases v <;>
    simp [wrapChunk, single_id_list, single_id_tuple, single_id_array, pyIter]

/-- When a chunk slice is itself traversable (a list chunk with list
traversal on, or a tuple/ndarray chunk of a tuple/ndarray input),
`_single_map_nested` processes it element-wise, so iterating the worker
result yields exactly the per-element results. -/
theorem pyIter_single_chunk (f : PyVal → PyVal) (o : MapOptions) (v : PyVal)
    (c : List PyVal) (hv : isDict v = true ∨ inTypes o v = true)
    (htrav : isDict v = true → o.map_list = true ∧ o.dict_only = false) :
    pyIter (_single_map_nested f o (wrapChunk v c))
      = .ok (c.map (_single_map_nested f o)) := by
  cases v with
  | leaf n => simp [isDict, inTypes] at hv
  | dict kvs =>
      obtain ⟨h1, h2⟩ := htrav rfl
      simp [wrapChunk, _single_map_nested, h1, h2, pyIter, smnList_eq_map]
  | list xs =>
      have h : o.dict_only = false ∧ o.map_list = true := by
        simpa [isDict, inTypes] using hv
      simp [wrapChunk, _single_map_nested, h.1, h.2, pyIter, smnList_eq_map]
  | tuple xs =>
      have h : o.dict_only = false ∧ o.map_tuple = true := by
        simpa [isDict, inTypes] using hv
      simp [wrapChunk, _single_map_nested, h.1, h.2, pyIter, smnList_eq_map]
  | array xs =>
      have h : o.dict_only = false ∧ o.map_numpy = true := by
        simpa [isDict, inTypes] using hv
      simp [wrapChunk, _single_map_nested, h.1, h.2, pyIter, smnList_eq_map]

/-- For any worker count `w`, `map_nested` with `num_proc = w` agrees with
the sequential `num_proc = 1` run, provided that when the input is a dict
the options keep list traversal on (`map_list` and not `dict_only`), so that
the list chunks handed to the workers are traversed element-wise. -/
theorem map_nested_eq_num_proc_one (f : PyVal → PyVal) (o : MapOptions)
    (v : PyVal) (w : Nat)
    (htrav : isDict v = true → o.map_list = true ∧ o.dict_only = false) :
    map_nested f o (some w) v = map_nested f o (some 1) v := by
  simp only [map_nested, Option.getD_some]
  by_cases hsing : (!isDict v && !inTypes o v) = true
  · rw [if_pos hsing, if_pos hsing]
  · rw [if_neg hsing, if_neg hsing]
    have hv : isDict v = true ∨ inTypes o v = true := by
      by_cases h1 : isDict v <;> by_cases h2 : inTypes o v <;> simp_all
    rw [if_pos (Or.inl (le_refl 1))]
    by_cases hseq : w ≤ 1 ∨ (elemsOf v).length ≤ w
    · rw [if_pos hseq]
    · rw [if_neg hseq]
      push_neg at hseq
      obtain ⟨hw1, hlen⟩ := hseq
      have hw0 : 0 < w := by omega
      rw [if_neg (not_ne_iff.mpr (splitChunks_sum (elemsOf v) hw0).symm)]
      have hred : ((splitChunks (elemsOf v) w).map
            fun c => c.map (_single_map_nested f o)).flatten
          = (elemsOf v).map (_single_map_nested f o) := by
        rw [show ((splitChunks (elemsOf v) w).map
              fun c => c.map (_single_map_nested f o))
            = (splitChunks (elemsOf v) w).map
              (List.map (_single_map_nested f o)) from rfl,
          ← List.map_flatten, splitChunks_flatten _ hw0]
      rw [flattenResults_map_ok (splitChunks (elemsOf v) w)
        (fun c => _single_map_nested f o (wrapChunk v c))
        (fun c => c.map (_single_map_nested f o))
        (fun c _ => pyIter_single_chunk f o v c hv htrav), hred]

/-! ## Claim theorems for the nested mapper -/

/-- C1 (counterexample): the claim fails as stated.  With `dict_only = true`
(so `types` is empty), the leaf function `fun _ => [7]`, the three-entry dict
`{0: 1, 1: 2, 2: 3}`, and worker counts `w1 = 1 ≠ 2 = w2` (both `≥ 1`), the
sequential path maps each leaf, but the parallel path hands each whole chunk
(a list, not an instance of `types`) to the function, flattens the two
results to a two-element list, and `dict(zip(keys, mapped))` silently
truncates: the two runs return different dicts. -/
theorem map_nested_num_proc_counterexample :
    1 ≤ (1 : Nat) ∧ 1 ≤ (2 : Nat) ∧ (1 : Nat) ≠ 2 ∧
    map_nested (fun _ => PyVal.list [.leaf 7])
        ⟨true, true, false, false⟩ (some 1)
        (.dict [(0, .leaf 1), (1, .leaf 2), (2, .leaf 3)])
      ≠ map_nested (fun _ => PyVal.list [.leaf 7])
        ⟨true, true, false, false⟩ (some 2)
        (.dict [(0, .leaf 1), (1, .leaf 2), (2, .leaf 3)]) := by
  refine ⟨by decide, by decide, by decide, ?_⟩
  decide

/-- C1 (amended): for every nested structure `v`, pure function `f`, and
worker counts `w1 ≠ w2` both `≥ 1`, `map_nested` gives the same result —
provided that when the input is a dict the traversal options include list
traversal (`map_list = true` and `dict_only = false`), so the parallel
path's list chunks are processed element-wise; for list/tuple/ndarray
inputs the equivalence holds for every option setting. -/
theorem map_nested_num_proc_invariant (f : PyVal → PyVal) (o : MapOptions)
    (v : PyVal) (w1 w2 : Nat) (hw1 : 1 ≤ w1) (hw2 : 1 ≤ w2) (hne : w1 ≠ w2)
    (htrav : isDict v = true → o.map_list = true ∧ o.dict_only = false) :
    map_nested f o (some w1) v = map_nested f o (some w2) v :=
  (map_nested_eq_num_proc_one f o v w1 htrav).trans
    (map_nested_eq_num_proc_one f o v w2 htrav).symm

/-- C1 (witness): the amended equivalence at a concrete input — the dict
`{0: 1, 1: 2, 2: 3}` with default traversal options, `f = const 9`,
`w1 = 1`, `w2 = 2`. -/
theorem map_nested_num_proc_invariant_witness :
    map_nested (fun _ => PyVal.leaf 9) ⟨false, true, false, false⟩ (some 1)
        (.dict [(0, .leaf 1), (1, .leaf 2), (2, .leaf 3)])
      = map_nested (fun _ => PyVal.leaf 9) ⟨false, true, false, false⟩ (some 2)
        (.dict [(0, .leaf 1), (1, .leaf 2), (2, .leaf 3)]) :=
  map_nested_num_proc_invariant (fun _ => PyVal.leaf 9)
    ⟨false, true, false, false⟩
    (.dict [(0, .leaf 1), (1, .leaf 2), (2, .leaf 3)]) 1 2
    (by decide) (by decide) (by decide) (fun _ => ⟨rfl, rfl⟩)

/-- C3: for `1 < w < n`, the split produces exactly `w` contiguous slices
`l[start:end]` with `start = n/w*i + min i (n%w)` and
`end = start + n/w + (1 if i < n%w else 0)`, which concatenate back to the
input in order; the chunk lengths follow that formula, sum to `n`, differ
pairwise by at most 1, and the first `n % w` chunks hold one extra
element. -/
theorem chunk_split_correct {α : Type} (l : List α) (w : Nat)
    (hw : 1 < w) (hn : w < l.length) :
    (splitChunks l w).length = w ∧
    (splitChunks l w).flatten = l ∧
    (∀ i, i < w → (splitChunks l w).getD i []
      = (l.drop (l.length / w * i + min i (l.length % w))).take
          (l.length / w + (if i < l.length % w then 1 else 0))) ∧
    (∀ i, i < w → ((splitChunks l w).getD i []).length
      = l.length / w + (if i < l.length % w then 1 else 0)) ∧
    ((splitChunks l w).map List.length).sum = l.length ∧
    (∀ i j, i < w → j < w →
      ((splitChunks l w).getD i []).length
        ≤ ((splitChunks l w).getD j []).length + 1) ∧
    (∀ i, i < l.length % w →
      ((splitChunks l w).getD i []).length = l.length / w + 1) := by
  have hw0 : 0 < w := by omega
  have hgetD : ∀ i, i < w → (splitChunks l w).getD i []
      = (l.drop (l.length / w * i + min i (l.length % w))).take
          (l.length / w + (if i < l.length % w then 1 else 0)) := by
    intro i hi
    rw [splitChunks_getD l hi]
    simp only [slice, chunkStart, chunkEnd]
    rw [Nat.add_assoc, Nat.add_sub_cancel_left]
  refine ⟨splitChunks_length l w, splitChunks_flatten l hw0, hgetD, ?_, ?_, ?_, ?_⟩
  · exact fun i hi => splitChunks_getD_length l hw0 hi
  · exact splitChunks_sum l hw0
  · intro i j hi hj
    rw [splitChunks_getD_length l hw0 hi, splitChunks_getD_length l hw0 hj]
    split <;> split <;> omega
  · intro i hi
    have hiw : i < w := lt_trans hi (Nat.mod_lt l.length hw0)
    rw [splitChunks_getD_length l hw0 hiw, if_pos hi]

/-- C3 (witness): the chunk-split properties at the concrete input
`[0, 1, 2, 3, 4]` with `w = 2` (so `1 < 2` and `2 < 5`). -/
theorem chunk_split_correct_witness :
    (splitChunks [0, 1, 2, 3, 4] 2).flatten = [0, 1, 2, 3, 4] ∧
    ((splitChunks [0, 1, 2, 3, 4] 2).map List.length).sum = 5 :=
  ⟨(chunk_split_correct [0, 1, 2, 3, 4] 2 (by decide) (by decide)).2.1,
   (chunk_split_correct [0, 1, 2, 3, 4] 2 (by decide) (by decide)).2.2.2.2.1⟩

/-- Every error produced by `flattenResults` carries the `TypeError`
message, never the chunk-accounting message. -/
theorem flattenResults_error :
    ∀ rs e, flattenResults rs = .error e → e = notIterableMsg := by
  intro rs
  induction rs with
  | nil => intro e h; exact absurd h (by simp [flattenResults])
  | cons r rs ih =>
      intro e h
      simp only [flattenResults] at h
      rcases hr : pyIter r with e' | xs
      · rw [hr] at h
        cases r <;> simp_all [pyIter]
      · rw [hr] at h
        rcases hrs : flattenResults rs with e'' | ys
        · rw [hrs] at h
          cases h
          exact ih e (by rw [hrs])
        · rw [hrs] at h
          cases h

/-- C4: the pre-dispatch accounting check in `map_nested`'s parallel path
always succeeds — the chunk lengths sum to the input length for every
input and worker count on that path — so the branch raising
`ValueError("Error dividing inputs iterable among processes ...")` is
unreachable: `map_nested` can never return that error. -/
theorem divide_check_unreachable (f : PyVal → PyVal) (o : MapOptions)
    (np : Option Nat) (v : PyVal) :
    map_nested f o np v ≠ Except.error divideErrMsg := by
  intro h
  simp only [map_nested] at h
  split at h
  · cases h
  · split at h
    · cases h
    · rename_i hpar
      push_neg at hpar
      have hw0 : 0 < np.getD 1 := by omega
      rw [if_neg (not_ne_iff.mpr (splitChunks_sum (elemsOf v) hw0).symm)] at h
      split at h
      · cases h
      · rename_i e heq
        cases h
        exact (by decide : divideErrMsg ≠ notIterableMsg)
          (flattenResults_error _ _ heq)

/-- C4 (witness): unreachability of the dividing error at a concrete
parallel-path input (five leaves, three workers). -/
theorem divide_check_unreachable_witness :
    map_nested id ⟨false, true, false, false⟩ (some 3)
        (.list [.leaf 0, .leaf 1, .leaf 2, .leaf 3, .leaf 4])
      ≠ Except.error divideErrMsg :=
  divide_check_unreachable id ⟨false, true, false, false⟩ (some 3)
    (.list [.leaf 0, .leaf 1, .leaf 2, .leaf 3, .leaf 4])

/-- C5: for every value `v`, every setting of the traversal options and
every worker count, `map_nested identity v` returns `v` itself: dicts are
rebuilt with the same keys in the same order, lists stay lists, tuples stay
tuples, arrays stay arrays, and every leaf comes back unchanged. -/
theorem map_nested_identity (o : MapOptions) (num_proc : Option Nat)
    (v : PyVal) : map_nested id o num_proc v = .ok v := by
  simp only [map_nested]
  by_cases hsing : (!isDict v && !inTypes o v) = true
  · rw [if_pos hsing]
    rfl
  · rw [if_neg hsing]
    have hv : isDict v = true ∨ inTypes o v = true := by
      by_cases h1 : isDict v <;> by_cases h2 : inTypes o v <;> simp_all
    have hmapid : (elemsOf v).map (_single_map_nested id o) = elemsOf v := by
      rw [funext (single_map_nested_id o)]
      exact List.map_id _
    by_cases hseq : num_proc.getD 1 ≤ 1 ∨ (elemsOf v).length ≤ num_proc.getD 1
    · rw [if_pos hseq, hmapid, rebuild_elemsOf o v hv]
    · rw [if_neg hseq]
      push_neg at hseq
      obtain ⟨hw1, hlen⟩ := hseq
      have hw0 : 0 < num_proc.getD 1 := by omega
      rw [if_neg (not_ne_iff.mpr (splitChunks_sum (elemsOf v) hw0).symm)]
      rw [flattenResults_map_ok (splitChunks (elemsOf v) (num_proc.getD 1))
        (fun c => _single_map_nested id o (wrapChunk v c)) (fun c => c)
        (fun c _ => pyIter_single_id_chunk o v c)]
      rw [show ((splitChunks (elemsOf v) (num_proc.getD 1)).map fun c => c)
          = splitChunks (elemsOf v) (num_proc.getD 1) from List.map_id _,
        splitChunks_flatten _ hw0]
      show Except.ok (rebuild v (elemsOf v)) = Except.ok v
      rw [rebuild_elemsOf o v hv]

/-- C9: `convert_file_size_to_int` returns an int unchanged; on strings it
returns the exact byte count — `"1MiB" ↦ 1048576`, `"5GB" ↦ 5·10⁹`, with the
`GIB`/`MIB`/`KIB` suffix classes (matched case-insensitively, in that order)
scaling by `2^30`/`2^20`/`2^10`, the `GB`/`MB`/`KB` classes by
`10^9`/`10^6`/`10^3` with a lowercase trailing `b` additionally flooring by
8 — and any string matching none of the six suffixes raises `ValueError`. -/
theorem convert_file_size_spec :
    (∀ n : Int, convert_file_size_to_int (.int n) = .ok n) ∧
    convert_file_size_to_int (.str "1MiB") = .ok 1048576 ∧
    convert_file_size_to_int (.str "5GB") = .ok 5000000000 ∧
    (∀ s : String, ∀ n : Int, pyEndsWith (pyToUpper s) "GIB" = true →
      int_of_string (pyDropRight s 3) = some n →
      convert_file_size_to_int (.str s) = .ok (n * 2 ^ 30)) ∧
    (∀ s : String, ∀ n : Int, pyEndsWith (pyToUpper s) "GIB" = false →
      pyEndsWith (pyToUpper s) "MIB" = true →
      int_of_string (pyDropRight s 3) = some n →
      convert_file_size_to_int (.str s) = .ok (n * 2 ^ 20)) ∧
    (∀ s : String, ∀ n : Int, pyEndsWith (pyToUpper s) "GIB" = false →
      pyEndsWith (pyToUpper s) "MIB" = false → pyEndsWith (pyToUpper s) "KIB" = true →
      int_of_string (pyDropRight s 3) = some n →
      convert_file_size_to_int (.str s) = .ok (n * 2 ^ 10)) ∧
    (∀ s : String, ∀ n : Int, pyEndsWith (pyToUpper s) "GIB" = false →
      pyEndsWith (pyToUpper s) "MIB" = false → pyEndsWith (pyToUpper s) "KIB" = false →
      pyEndsWith (pyToUpper s) "GB" = true →
      int_of_string (pyDropRight s 2) = some n →
      convert_file_size_to_int (.str s)
        = .ok (if pyEndsWith s "b" then Int.fdiv (n * 10 ^ 9) 8 else n * 10 ^ 9)) ∧
    (∀ s : String, ∀ n : Int, pyEndsWith (pyToUpper s) "GIB" = false →
      pyEndsWith (pyToUpper s) "MIB" = false → pyEndsWith (pyToUpper s) "KIB" = false →
      pyEndsWith (pyToUpper s) "GB" = false → pyEndsWith (pyToUpper s) "MB" = true →
      int_of_string (pyDropRight s 2) = some n →
      convert_file_size_to_int (.str s)
        = .ok (if pyEndsWith s "b" then Int.fdiv (n * 10 ^ 6) 8 else n * 10 ^ 6)) ∧
    (∀ s : String, ∀ n : Int, pyEndsWith (pyToUpper s) "GIB" = false →
      pyEndsWith (pyToUpper s) "MIB" = false → pyEndsWith (pyToUpper s) "KIB" = false →
      pyEndsWith (pyToUpper s) "GB" = false → pyEndsWith (pyToUpper s) "MB" = false →
      pyEndsWith (pyToUpper s) "KB" = true →
      int_of_string (pyDropRight s 2) = some n →
      convert_file_size_to_int (.str s)
        = .ok (if pyEndsWith s "b" then Int.fdiv (n * 10 ^ 3) 8 else n * 10 ^ 3)) ∧
    (∀ s : String, pyEndsWith (pyToUpper s) "GIB" = false →
      pyEndsWith (pyToUpper s) "MIB" = false → pyEndsWith (pyToUpper s) "KIB" = false →
      pyEndsWith (pyToUpper s) "GB" = false → pyEndsWith (pyToUpper s) "MB" = false →
      pyEndsWith (pyToUpper s) "KB" = false →
      convert_file_size_to_int (.str s) = .error invalidFormatMsg) := by
  refine ⟨fun n => rfl, by decide, by decide, ?_, ?_, ?_, ?_, ?_, ?_, ?_⟩
  · intro s n h1 hp
    simp [convert_file_size_to_int, h1, intBranch3, hp]
  · intro s n h1 h2 hp
    simp [convert_file_size_to_int, h1, h2, intBranch3, hp]
  · intro s n h1 h2 h3 hp
    simp [convert_file_size_to_int, h1, h2, h3, intBranch3, hp]
  · intro s n h1 h2 h3 h4 hp
    simp [convert_file_size_to_int, h1, h2, h3, h4, intBranch2, hp]
  · intro s n h1 h2 h3 h4 h5 hp
    simp [convert_file_size_to_int, h1, h2, h3, h4, h5, intBranch2, hp]
  · intro s n h1 h2 h3 h4 h5 h6 hp
    simp [convert_file_size_to_int, h1, h2, h3, h4, h5, h6, intBranch2, hp]
  · intro s h1 h2 h3 h4 h5 h6
    simp [convert_file_size_to_int, h1, h2, h3, h4, h5, h6]

/-- C9 (witness): the suffix branches evaluated at concrete inputs — a
binary `KiB` string, a `Gb` string with lowercase trailing bit marker, and
an unrecognised `TB` suffix. -/
theorem convert_file_size_spec_witness :
    convert_file_size_to_int (.str "3KiB") = .ok 3072 ∧
    convert_file_size_to_int (.str "8Gb") = .ok 1000000000 ∧
    convert_file_size_to_int (.str "2TB") = .error invalidFormatMsg :=
  ⟨convert_file_size_spec.2.2.2.2.2.1 "3KiB" 3 (by decide) (by decide) (by decide)
      (by decide),
   by
    have h := convert_file_size_spec.2.2.2.2.2.2.1 "8Gb" 8 (by decide) (by decide)
      (by decide) (by decide) (by decide)
    rw [h]
    decide,
   convert_file_size_spec.2.2.2.2.2.2.2.2.2 "2TB" (by decide) (by decide)
     (by decide) (by decide) (by decide) (by decide)⟩

theorem pySetItemRaw_fresh {α β : Type} [DecidableEq α] :
    ∀ (d : List (α × β)) (k : α) (v : β), k ∉ d.map Prod.fst →
      pySetItemRaw d k v = d ++ [(k, v)]
  | [], k, v, _ => rfl
  | (k', v') :: rest, k, v, h => by
      have hne : k' ≠ k := by
        intro he
        exact h (by simp [he])
      rw [pySetItemRaw, if_neg hne,
        pySetItemRaw_fresh rest k v (fun hm => h (by simp [hm]))]
      rfl

theorem foldl_pySetItemRaw_append {α β : Type} [DecidableEq α] :
    ∀ (other d : List (α × β)),
      (∀ k2 ∈ other.map Prod.fst, k2 ∉ d.map Prod.fst) →
      (other.map Prod.fst).Nodup →
      other.foldl (fun acc kv => pySetItemRaw acc kv.1 kv.2) d = d ++ other
  | [], d, _, _ => by simp
  | (k, v) :: rest, d, hdisj, hnd => by
      rw [List.foldl_cons]
      have hk : k ∉ d.map Prod.fst := hdisj k (by simp)
      rw [show pySetItemRaw d (k, v).1 (k, v).2 = d ++ [(k, v)] from
        pySetItemRaw_fresh d k v hk]
      rw [foldl_pySetItemRaw_append rest (d ++ [(k, v)]) ?_ ?_]
      · simp
      · intro k2 hk2
        simp only [List.map_append, List.mem_append] at *
        rintro (hd | hkv)
        · exact hdisj k2 (List.mem_cons_of_mem k hk2) hd
        · simp only [List.map_cons, List.map_nil, List.mem_singleton] at hkv
          simp only [List.map_cons, List.nodup_cons] at hnd
          exact hnd.1 (hkv ▸ hk2)
      · simp only [List.map_cons, List.nodup_cons] at hnd
        exact hnd.2

/-- C10: `NonMutableDict` admits only fresh keys: setting an existing key
raises `ValueError` (returning no new dict, so the dict is unchanged);
setting a fresh key appends it; `update` raises — before performing any
insertion — when any key of `other` is present, and with only fresh
(pairwise distinct) keys appends all of `other`'s entries in order. -/
theorem non_mutable_dict_spec {α β : Type} [DecidableEq α]
    (d other : List (α × β)) (k : α) (v : β) :
    (k ∈ d.map Prod.fst →
      NonMutableDict_setitem d k v = .error overwriteErrMsg) ∧
    (k ∉ d.map Prod.fst →
      NonMutableDict_setitem d k v = .ok (d ++ [(k, v)])) ∧
    ((∃ kv ∈ other, kv.1 ∈ d.map Prod.fst) →
      NonMutableDict_update d other = .error overwriteErrMsg) ∧
    ((∀ k2 ∈ other.map Prod.fst, k2 ∉ d.map Prod.fst) →
      (other.map Prod.fst).Nodup →
      NonMutableDict_update d other = .ok (d ++ other)) := by
  refine ⟨?_, ?_, ?_, ?_⟩
  · intro h
    rw [NonMutableDict_setitem, if_pos h]
  · intro h
    rw [NonMutableDict_setitem, if_neg h, pySetItemRaw_fresh d k v h]
  · intro h
    rw [NonMutableDict_update, if_pos h]
  · intro hdisj hnd
    have hno : ¬∃ kv ∈ other, kv.1 ∈ d.map Prod.fst := by
      rintro ⟨kv, hkv, hmem⟩
      exact hdisj kv.1 (List.mem_map_of_mem Prod.fst hkv) hmem
    rw [NonMutableDict_update, if_neg hno,
      foldl_pySetItemRaw_append other d hdisj hnd]

/-- C10 (witness): the fresh-key and overlap behaviours at concrete
dictionaries over `Nat` keys and values. -/
theorem non_mutable_dict_spec_witness :
    NonMutableDict_setitem [(1, 10), (2, 20)] 5 (50 : Nat)
      = .ok [(1, 10), (2, 20), (5, 50)] ∧
    NonMutableDict_update [(1, 10), (2, 20)] [(2, 99), (3, 30)]
      = .error overwriteErrMsg :=
  ⟨(non_mutable_dict_spec [(1, 10), (2, 20)] [] 5 50).2.1 (by decide),
   (non_mutable_dict_spec [(1, 10), (2, 20)] [(2, 99), (3, 30)] 0 0).2.2.1
     ⟨(2, 99), by decide, by decide⟩⟩

/-! ## Theorems about the attribute frame of `dumps` -/

theorem setAttrList_twice (l : List (String × PyAttr)) (k : String)
    (v w : PyAttr) : setAttrList (setAttrList l k v) k w = setAttrList l k w := by
  induction l with
  | nil => simp [setAttrList]
  | cons x rest ih =>
      obtain ⟨k', v'⟩ := x
      by_cases h : k' = k
      · simp [setAttrList, h]
      · simp [setAttrList, h, ih]

theorem setAttrList_self (l : List (String × PyAttr)) (k : String)
    (v : PyAttr) (h : getAttrList l k = some v) : setAttrList l k v = l := by
  induction l with
  | nil => exact absurd h (by simp [getAttrList])
  | cons x rest ih =>
      obtain ⟨k', v'⟩ := x
      by_cases hk : k' = k
      · simp only [getAttrList, if_pos hk, Option.some.injEq] at h
        simp [setAttrList, hk, h]
      · simp only [getAttrList, if_neg hk] at h
        simp [setAttrList, hk, ih h]

/-- C8: when the object's MRO contains a class named
`PreTrainedTokenizerBase` and it carries a dict-valued `cache` attribute,
`dumps` performs the encoding on the object with `cache` temporarily set to
an empty dict and hands back the object with its original attributes fully
restored (whether the encoder returns or raises); for every other object
`dumps` encodes it as-is and leaves it untouched. -/
theorem dumps_cache_frame {β : Type} (encode : PyObject → Except Unit β)
    (obj : PyObject) :
    (∀ d : List (String × PyAtom),
      hasTokenizerCacheDict obj = true →
      pyGetattr obj "cache" = some (.dict d) →
      dumps_state encode obj
        = (encode (pySetattr obj "cache" (.dict [])), obj)) ∧
    (hasTokenizerCacheDict obj = false →
      dumps_state encode obj = (encode obj, obj)) := by
  constructor
  · intro d hc hget
    simp only [dumps_state, if_pos hc, temporary_assignment]
    rw [hget, Option.getD_some]
    congr 1
    show pySetattr (pySetattr obj "cache" (.dict [])) "cache" (.dict d) = obj
    simp only [pySetattr]
    rw [setAttrList_twice, setAttrList_self obj.attrs "cache" (.dict d) hget]
  · intro hc
    simp only [dumps_state]
    rw [if_neg (by simp [hc])]

/-- C8 (witness): the cache of a concrete tokenizer-like object is emptied
for the encoder and restored afterwards, with every other attribute
untouched. -/
theorem dumps_cache_frame_witness :
    dumps_state (fun o => Except.ok o)
        ⟨["BertTok", "PreTrainedTokenizerBase"],
          [("cache", .dict [("k", .int 1)]), ("vocab", .atom (.int 5))]⟩
      = (Except.ok (pySetattr
            ⟨["BertTok", "PreTrainedTokenizerBase"],
              [("cache", .dict [("k", .int 1)]), ("vocab", .atom (.int 5))]⟩
            "cache" (.dict [])),
          ⟨["BertTok", "PreTrainedTokenizerBase"],
            [("cache", .dict [("k", .int 1)]), ("vocab", .atom (.int 5))]⟩) :=
  (dumps_cache_frame (fun o => Except.ok o)
      ⟨["BertTok", "PreTrainedTokenizerBase"],
        [("cache", .dict [("k", .int 1)]), ("vocab", .atom (.int 5))]⟩).1
    [("k", .int 1)] (by decide) (by decide)

/-! ## Theorems about the string-blind memoization of `Pickler` -/

theorem memoIdx_none (memo : List Nat) (i : Nat) (h : i ∉ memo) :
    memoIdx memo i = none := by
  induction memo with
  | nil => rfl
  | cons m ms ih =>
      have hm : m ≠ i := fun he => h (he ▸ List.mem_cons_self m ms)
      simp only [memoIdx, if_neg hm]
      rw [ih (fun hmem => h (List.mem_cons_of_mem m hmem))]
      rfl

theorem pickleItems_append (memo : List Nat) (xs ys : List (Nat × PickleLeaf)) :
    pickleItems memo (xs ++ ys)
      = pickleItems memo xs ++ pickleItems (memoAfter memo xs) ys := by
  induction xs generalizing memo with
  | nil => rfl
  | cons x rest ih =>
      obtain ⟨i, v⟩ := x
      rw [List.cons_append]
      simp only [pickleItems, memoAfter]
      cases hmi : memoIdx memo i
      · simp only [List.cons_append]
        rw [ih]
      · simp only [List.cons_append]
        rw [ih]

/-- Pickling a text object whose identity is not in the memo emits its
content literally and leaves the memo unchanged (`Pickler.memoize` skips
strings). -/
theorem pickleItems_str_cons (memo : List Nat) (i : Nat) (s : String)
    (rest : List (Nat × PickleLeaf)) (h : i ∉ memo) :
    pickleItems memo ((i, .str s) :: rest)
      = .strTok s :: pickleItems memo rest := by
  simp only [pickleItems, memoIdx_none memo i h, pickler_memoize]

/-- The memo after a text object not previously memoized is unchanged. -/
theorem memoAfter_str_cons (memo : List Nat) (i : Nat) (s : String)
    (rest : List (Nat × PickleLeaf)) (h : i ∉ memo) :
    memoAfter memo ((i, .str s) :: rest) = memoAfter memo rest := by
  simp only [memoAfter, memoIdx_none memo i h, pickler_memoize]

theorem memoAfter_append (memo : List Nat) (xs ys : List (Nat × PickleLeaf)) :
    memoAfter memo (xs ++ ys) = memoAfter (memoAfter memo xs) ys := by
  induction xs generalizing memo with
  | nil => rfl
  | cons x rest ih =>
      obtain ⟨i, v⟩ := x
      rw [List.cons_append]
      simp only [memoAfter]
      cases hmi : memoIdx memo i
      · exact ih _
      · exact ih _

theorem memoAfter_mem (xs : List (Nat × PickleLeaf)) :
    ∀ (memo : List Nat), ∀ x ∈ memoAfter memo xs, x ∈ memo ∨ x ∈ objIds xs := by
  induction xs with
  | nil => intro memo x hx; exact Or.inl hx
  | cons p rest ih =>
      obtain ⟨i, v⟩ := p
      intro memo x hx
      simp only [memoAfter] at hx
      cases hmi : memoIdx memo i <;> rw [hmi] at hx
      · rcases ih _ x hx with hm | ho
        · cases v with
          | str s => exact Or.inl hm
          | obj t =>
              simp only [pickler_memoize] at hm
              rcases List.mem_append.mp hm with h1 | h2
              · exact Or.inl h1
              · simp only [List.mem_singleton] at h2
                exact Or.inr (by simp [objIds, h2])
        · cases v with
          | str s => exact Or.inr (by simp [objIds, ho])
          | obj t => exact Or.inr (by simp [objIds, ho])
      · rcases ih memo x hx with hm | ho
        · exact Or.inl hm
        · cases v with
          | str s => exact Or.inr (by simp [objIds, ho])
          | obj t => exact Or.inr (by simp [objIds, ho])

/-- C6: `Pickler.memoize` never records text objects, so object identity of
text never influences the output: a bare text value encodes the same way
under any identity; memoizing a str leaves the memo unchanged; and a
container holding the same str object at two positions serializes exactly
like the container holding two distinct-but-equal str objects there (given
that object ids of distinct live objects are distinct, so a text id never
coincides with a memoized object id). -/
theorem dumps_text_identity_blind
    (pre mid post : List (Nat × PickleLeaf)) (i j : Nat) (s : String)
    (hi : i ∉ objIds pre ∧ i ∉ objIds mid)
    (hj : j ∉ objIds pre ∧ j ∉ objIds mid) :
    (∀ (i2 j2 : Nat) (s2 : String),
      dumpsSingle i2 (.str s2) = dumpsSingle j2 (.str s2)) ∧
    (∀ (memo : List Nat) (i2 : Nat) (s2 : String),
      pickler_memoize memo i2 (.str s2) = memo) ∧
    dumpsContainer (pre ++ (i, .str s) :: mid ++ (i, .str s) :: post)
      = dumpsContainer (pre ++ (i, .str s) :: mid ++ (j, .str s) :: post) := by
  refine ⟨fun i2 j2 s2 => rfl, fun memo i2 s2 => rfl, ?_⟩
  have him1 : i ∉ memoAfter [] pre := fun hmem => by
    rcases memoAfter_mem pre [] i hmem with h | h
    · exact absurd h (List.not_mem_nil i)
    · exact hi.1 h
  have him2 : i ∉ memoAfter (memoAfter [] pre) mid := fun hmem => by
    rcases memoAfter_mem mid (memoAfter [] pre) i hmem with h | h
    · exact him1 h
    · exact hi.2 h
  have hjm2 : j ∉ memoAfter (memoAfter [] pre) mid := fun hmem => by
    rcases memoAfter_mem mid (memoAfter [] pre) j hmem with h | h
    · rcases memoAfter_mem pre [] j h with h2 | h2
      · exact absurd h2 (List.not_mem_nil j)
      · exact hj.1 h2
    · exact hj.2 h
  have hside : ∀ x : Nat, x ∉ memoAfter (memoAfter [] pre) mid →
      pickleItems [] (pre ++ (i, .str s) :: mid ++ (x, .str s) :: post)
        = (pickleItems [] pre ++ .strTok s ::
            pickleItems (memoAfter [] pre) mid) ++ .strTok s ::
              pickleItems (memoAfter (memoAfter [] pre) mid) post := by
    intro x hx
    rw [pickleItems_append, pickleItems_append,
      pickleItems_str_cons _ i s _ him1, memoAfter_append,
      memoAfter_str_cons _ i s _ him1, pickleItems_str_cons _ x s _ hx]
  simp only [dumpsContainer]
  rw [hside i him2, hside j hjm2]

/-- C6 (witness): a concrete container of opaque objects and text — the
same text object twice versus two distinct equal text objects — serializes
identically. -/
theorem dumps_text_identity_blind_witness :
    dumpsContainer
        [(100, .obj 0), (1, .str "t"), (101, .obj 1), (1, .str "t"),
          (102, .obj 0)]
      = dumpsContainer
        [(100, .obj 0), (1, .str "t"), (101, .obj 1), (2, .str "t"),
          (102, .obj 0)] :=
  (dumps_text_identity_blind [(100, .obj 0)] [(101, .obj 1)] [(102, .obj 0)]
    1 2 "t" ⟨by decide, by decide⟩ ⟨by decide, by decide⟩).2.2

/-! ## Theorems about `_save_code` and `save_function` -/

theorem charListLe_total : ∀ as bs : List Char,
    charListLe as bs = true ∨ charListLe bs as = true := by
  intro as
  induction as with
  | nil => intro bs; left; rfl
  | cons a as ih =>
      intro bs
      cases bs with
      | nil => right; rfl
      | cons b bs =>
          rcases Nat.lt_trichotomy a.toNat b.toNat with h | h | h
          · left
            simp [charListLe, h]
          · have h1 : ¬ a.toNat < b.toNat := by omega
            have h2 : ¬ b.toNat < a.toNat := by omega
            rcases ih bs with hl | hr
            · left
              simp [charListLe, h1, h2, hl]
            · right
              simp [charListLe, h1, h2, hr]
          · right
            simp [charListLe, h]

theorem pyStrLe_total (a b : String) :
    pyStrLe a b = true ∨ pyStrLe b a = true :=
  charListLe_total a.data b.data

theorem insertSortedKey_chain (k : String) (l : List String)
    (h : List.Chain' (fun a b => pyStrLe a b = true) l) :
    List.Chain' (fun a b => pyStrLe a b = true) (insertSortedKey k l) := by
  induction l with
  | nil => simp [insertSortedKey]
  | cons x xs ih =>
      simp only [insertSortedKey]
      by_cases hk : pyStrLe k x = true
      · rw [if_pos hk]
        exact List.chain'_cons.mpr ⟨hk, h⟩
      · rw [if_neg hk]
        have hxk : pyStrLe x k = true := (pyStrLe_total k x).resolve_left hk
        cases xs with
        | nil =>
            simp [insertSortedKey, hxk]
        | cons y ys =>
            rw [List.chain'_cons] at h
            obtain ⟨hxy, htail⟩ := h
            have hins := ih htail
            simp only [insertSortedKey] at hins ⊢
            by_cases hky : pyStrLe k y = true
            · rw [if_pos hky] at hins ⊢
              exact List.chain'_cons.mpr ⟨hxk, hins⟩
            · rw [if_neg hky] at hins ⊢
              exact List.chain'_cons.mpr ⟨hxy, hins⟩

theorem sortKeys_chain (l : List String) :
    List.Chain' (fun a b => pyStrLe a b = true) (sortKeys l) := by
  induction l with
  | nil => simp [sortKeys]
  | cons k rest ih => exact insertSortedKey_chain k _ ih

theorem insertSortedKey_perm (k : String) (l : List String) :
    List.Perm (insertSortedKey k l) (k :: l) := by
  induction l with
  | nil => exact List.Perm.refl _
  | cons x xs ih =>
      simp only [insertSortedKey]
      by_cases hk : pyStrLe k x = true
      · rw [if_pos hk]
      · rw [if_neg hk]
        exact (ih.cons x).trans (List.Perm.swap k x xs)

theorem sortKeys_perm (l : List String) : List.Perm (sortKeys l) l := by
  induction l with
  | nil => exact List.Perm.refl _
  | cons k rest ih =>
      exact (insertSortedKey_perm k (sortKeys rest)).trans (ih.cons k)

theorem map_lookup_self (globs : List (String × PyAtom))
    (hnd : (globs.map Prod.fst).Nodup) :
    (globs.map Prod.fst).map
        (fun k => (k, (lookupKey globs k).getD (PyAtom.int 0))) = globs := by
  induction globs with
  | nil => rfl
  | cons p rest ih =>
      obtain ⟨k, v⟩ := p
      simp only [List.map_cons, List.nodup_cons] at hnd
      obtain ⟨hknr, hndr⟩ := hnd
      simp only [List.map_cons]
      congr 1
      · simp [lookupKey]
      · have hpt : ∀ k2 ∈ rest.map Prod.fst,
            (fun k2 => (k2, (lookupKey ((k, v) :: rest) k2).getD (PyAtom.int 0))) k2
              = (fun k2 => (k2, (lookupKey rest k2).getD (PyAtom.int 0))) k2 := by
          intro k2 hk2
          have hne : k ≠ k2 := fun he => hknr (he ▸ hk2)
          simp [lookupKey, hne]
        rw [List.map_congr_left hpt, ih hndr]

theorem sortGlobs_perm (globs : List (String × PyAtom))
    (hnd : (globs.map Prod.fst).Nodup) : List.Perm (sortGlobs globs) globs := by
  rw [sortGlobs]
  refine ((sortKeys_perm (globs.map Prod.fst)).map
    (fun k => (k, (lookupKey globs k).getD (PyAtom.int 0)))).trans ?_
  rw [map_lookup_self globs hnd]

theorem sortGlobs_keys_sorted (globs : List (String × PyAtom)) :
    List.Chain' (fun a b => pyStrLe a b = true)
      ((sortGlobs globs).map Prod.fst) := by
  rw [sortGlobs, List.map_map]
  rw [show ((Prod.fst ∘ fun k =>
      ((k, (lookupKey globs k).getD (PyAtom.int 0)) : String × PyAtom)))
    = fun k => k from rfl]
  rw [show List.map (fun k : String => k) (sortKeys (globs.map Prod.fst))
    = sortKeys (globs.map Prod.fst) from List.map_id _]
  exact sortKeys_chain _

/-- C7 (counterexample): in the dill ≥ 0.3.5 path (with `recurse=True`, as
`dumps` always uses), for a function capturing globals `zvar` and `avar`,
the globals mapping embedded in the `_create_function` arguments is the
bare `{"__name__": module}` — not the captured bindings sorted by name —
and the captured bindings travel in the deferred `_setitems` postproc step
in their original, unsorted order. -/
theorem save_function_globals_counterexample :
    (save_function_new c7fun).globs ≠ sortGlobs c7fun.func_globals ∧
    (save_function_new c7fun).postproc_setitems
      ≠ sortGlobs c7fun.func_globals := by
  constructor
  · decide
  · decide

/-- C7 (amended): in the dill < 0.3.5 path the globals mapping embedded in
the payload is exactly the captured bindings re-keyed in ascending name
order (a permutation of the captured mapping with sorted keys); in the
dill ≥ 0.3.5 path (with `recurse=True` as `dumps` uses) the directly
embedded mapping is the singleton `{"__name__": module}` (trivially
sorted), and the captured bindings are attached through the `_setitems`
postprocessing step in their original iteration order, unsorted. -/
theorem save_function_globals (f : FunctionType)
    (hnd : (f.func_globals.map Prod.fst).Nodup) :
    (save_function_old f).globs = sortGlobs f.func_globals ∧
    List.Chain' (fun a b => pyStrLe a b = true)
      ((sortGlobs f.func_globals).map Prod.fst) ∧
    List.Perm (sortGlobs f.func_globals) f.func_globals ∧
    (save_function_new f).globs = [("__name__", PyAtom.str f.func_module)] ∧
    (save_function_new f).postproc_setitems = f.func_globals :=
  ⟨rfl, sortGlobs_keys_sorted _, sortGlobs_perm _ hnd, rfl, rfl⟩

/-- C7 (witness): the sorted re-keying at the concrete captured globals
`{zvar: 1, avar: 2}` in the dill < 0.3.5 payload. -/
theorem save_function_globals_witness :
    (save_function_old c7fun).globs = sortGlobs c7fun.func_globals ∧
    List.Perm (sortGlobs c7fun.func_globals) c7fun.func_globals :=
  ⟨(save_function_globals c7fun (by decide)).1,
   (save_function_globals c7fun (by decide)).2.2.1⟩

/-- C2 (counterexample): two functions that differ only in their source
file path and defining line number — here two ordinary named functions in
files with different basenames — do not serialize identically: `_save_code`
keeps the file basename for a named function in a regular file, so the
byte-determining payloads differ in both dill regimes. -/
theorem save_function_location_counterexample :
    c2fun1.func_code = { c2fun2.func_code with
        co_filename := c2fun1.func_code.co_filename,
        co_firstlineno := c2fun1.func_code.co_firstlineno } ∧
    c2fun1 = { c2fun2 with func_code := c2fun1.func_code } ∧
    c2fun1.func_code.co_filename ≠ c2fun2.func_code.co_filename ∧
    c2fun1.func_code.co_firstlineno ≠ c2fun2.func_code.co_firstlineno ∧
    save_function_old c2fun1 ≠ save_function_old c2fun2 ∧
    save_function_new c2fun1 ≠ save_function_new c2fun2 := by
  refine ⟨by decide, by decide, by decide, by decide, by decide, by decide⟩

/-- C2 (amended): two non-locatable functions that agree on everything
except `co_filename` and `co_firstlineno` serialize identically — in both
dill regimes — provided their filename normalisation agrees: both filenames
are interactive/shell origins (starting with `<`), or the code's name is
`<lambda>`, or neither starts with `<` and the file *basenames* coincide.
The defining line number never influences the payload. -/
theorem save_function_location_invariant (g : FunctionType)
    (fn1 fn2 : String) (ln1 ln2 : Nat)
    (hnorm : (startsWithLt fn1 = true ∧ startsWithLt fn2 = true) ∨
      g.func_code.co_name = "<lambda>" ∨
      (startsWithLt fn1 = false ∧ startsWithLt fn2 = false ∧
        basename fn1 = basename fn2)) :
    save_function_old { g with func_code :=
        { g.func_code with co_filename := fn1, co_firstlineno := ln1 } }
      = save_function_old { g with func_code :=
        { g.func_code with co_filename := fn2, co_firstlineno := ln2 } } ∧
    save_function_new { g with func_code :=
        { g.func_code with co_filename := fn1, co_firstlineno := ln1 } }
      = save_function_new { g with func_code :=
        { g.func_code with co_filename := fn2, co_firstlineno := ln2 } } := by
  have hcode : _save_code
        { g.func_code with co_filename := fn1, co_firstlineno := ln1 }
      = _save_code
        { g.func_code with co_filename := fn2, co_firstlineno := ln2 } := by
    by_cases hl : g.func_code.co_name = "<lambda>"
    · simp only [_save_code]
      rw [if_pos (Or.inr hl), if_pos (Or.inr hl)]
    · rcases hnorm with ⟨h1, h2⟩ | h | ⟨h1, h2, h3⟩
      · simp only [_save_code]
        rw [if_pos (Or.inl h1), if_pos (Or.inl h2)]
      · exact absurd h hl
      · simp only [_save_code]
        rw [if_neg (by rw [h1]; rintro (hc | hc) <;> simp_all),
          if_neg (by rw [h2]; rintro (hc | hc) <;> simp_all), h3]
  constructor
  · simp only [save_function_old, hcode]
  · simp only [save_function_new, hcode]

/-- C2 (witness): moving a named function from `a/mod.py` line 3 to
`b/mod.py` line 17 (same basename) leaves both payloads unchanged. -/
theorem save_function_location_invariant_witness :
    save_function_old { c2fun1 with func_code :=
        { c2fun1.func_code with co_filename := "a/mod.py", co_firstlineno := 3 } }
      = save_function_old { c2fun1 with func_code :=
        { c2fun1.func_code with co_filename := "b/mod.py", co_firstlineno := 17 } } :=
  (save_function_location_invariant c2fun1 "a/mod.py" "b/mod.py" 3 17
    (Or.inr (Or.inr ⟨by decide, by decide, by decide⟩))).1

end DatasetsPyUtils
